import Mathlib

/-!
Formal model of the audio pipeline of a browser text-to-speech application:
base64 decoding, raw PCM decoding, WAV container encoding, the playback
controller state machine, and the remote speech-generation guard.

Samples are modelled as exact rationals.  Every floating-point operation the
pipeline performs on IEEE float32 channel data is exact (divisions by the
power of two 32768, multiplications of a float32 by 32767 or 32768, clamping,
and truncation all introduce no rounding at float64 precision), so the
rational model coincides with the JavaScript computation on all
float32-representable inputs.
-/

/-- Interpret two bytes as one signed 16-bit little-endian integer, the read
performed by an `Int16Array` view in the PCM decoder. -/
def toInt16 (lo hi : Nat) : Int :=
  let v : Nat := lo % 256 + 256 * (hi % 256)
  if v < 32768 then (v : Int) else (v : Int) - 65536

/-- The `Int16Array` view of a byte buffer: consecutive little-endian byte
pairs.  (The JavaScript constructor refuses a buffer of odd byte length; the
caller below checks that before using this view.) -/
def bytesToInt16List : List Nat → List Int
  | lo :: hi :: rest => toInt16 lo hi :: bytesToInt16List rest
  | _ => []

/-- Model of a Web Audio `AudioBuffer`: channel count, sample rate, frame
count, and per-channel sample data. -/
structure AudioBuffer where
  numChannels : Nat
  sampleRate : Nat
  length : Nat
  data : List (List ℚ)

/-- The read `buffer.getChannelData(ch)[i]`, with out-of-range reads giving
the JavaScript default (which the pipeline turns into a zero sample). -/
def channelSample (b : AudioBuffer) (ch i : Nat) : ℚ :=
  (b.data.getD ch []).getD i 0

/-- Model of `decodeAudioData` (audio utilities module): build an
`Int16Array` view over the bytes — the constructor throws on an odd byte
length —, compute `frameCount = dataInt16.length / numChannels`, allocate the
buffer with `ctx.createBuffer` — which per the Web Audio API throws
NotSupportedError when any argument is outside its nominal range: a channel
count outside [1, 32], a sample rate outside the mandated supported range
[8000, 96000] (which also excludes zero), or a zero frame count (length must
be at least 1) —, then de-interleave, storing
`dataInt16[i * numChannels + channel] / 32768.0` as sample `i` of channel
`channel`.  A trailing group of 16-bit values shorter than one full frame is
never read into any surviving sample (the out-of-range store of the
fractional loop iteration is discarded), so partial frames are dropped. -/
def decodeAudioData (data : List Nat) (sampleRate : Nat) (numChannels : Nat) :
    Option AudioBuffer :=
  if data.length % 2 ≠ 0 then none
  else
    let dataInt16 := bytesToInt16List data
    let frameCount := dataInt16.length / numChannels
    if numChannels < 1 ∨ 32 < numChannels then none
    else if sampleRate < 8000 ∨ 96000 < sampleRate then none
    else if frameCount = 0 then none
    else some
      ⟨numChannels, sampleRate, frameCount,
        (List.range numChannels).map fun ch =>
          (List.range frameCount).map fun i =>
            ((dataInt16.getD (i * numChannels + ch) 0 : Int) : ℚ) / 32768⟩

/-- The clamp `Math.max(-1, Math.min(1, sample))` of the WAV encoder. -/
def clampSample (s : ℚ) : ℚ := max (-1) (min 1 s)

/-- JavaScript number-to-integer conversion: truncation toward zero. -/
def jsTrunc (q : ℚ) : Int := if q < 0 then ⌈q⌉ else ⌊q⌋

/-- Reduction of an integer into the signed 16-bit range modulo 2^16, the
store semantics of an `Int16Array` element. -/
def toInt16Wrap (n : Int) : Int :=
  let m := n % 65536
  if m < 32768 then m else m - 65536

/-- One sample of the WAV encoder: clamp to [-1, 1], scale a negative sample
by 0x8000 and a non-negative one by 0x7FFF, then store into an `Int16Array`
(truncate toward zero and wrap modulo 2^16). -/
def encodeSample (s : ℚ) : Int :=
  let c := clampSample s
  toInt16Wrap (jsTrunc (if c < 0 then c * 32768 else c * 32767))

/-- The interleaved `Int16Array` built by the double loop of
`audioBufferToWav`: position `i * numChannels + ch` holds the encoding of
sample `i` of channel `ch`. -/
def wavData (b : AudioBuffer) : List Int :=
  ((List.range b.length).map fun i =>
    (List.range b.numChannels).map fun ch =>
      encodeSample (channelSample b ch i)).flatten

/-- `DataView.setUint16` with littleEndian true: the value modulo 2^16 as two
bytes, low byte first. -/
def uint16LE (v : Nat) : List Nat := [v % 256, v / 256 % 256]

/-- `DataView.setUint32` with littleEndian true: the value modulo 2^32 as
four bytes, low byte first. -/
def uint32LE (v : Nat) : List Nat :=
  [v % 256, v / 256 % 256, v / 65536 % 256, v / 16777216 % 256]

/-- The two little-endian bytes of one stored `Int16Array` element. -/
def int16LEbytes (n : Int) : List Nat :=
  let m := (n % 65536).toNat
  [m % 256, m / 256]

/-- The byte image of an `Int16Array` (little-endian platform layout, the
layout the WAV encoder relies on). -/
def int16ListToBytes : List Int → List Nat
  | [] => []
  | n :: rest => int16LEbytes n ++ int16ListToBytes rest

/-- The 44-byte canonical RIFF/WAVE header written by `audioBufferToWav`:
"RIFF", file length minus 8, "WAVE", "fmt ", chunk length 16, format tag 1,
channel count, sample rate, byte rate, block align, bits per sample 16,
"data", data chunk length. -/
def wavHeader (numChannels sampleRate dataByteLength : Nat) : List Nat :=
  [82, 73, 70, 70] ++ uint32LE (36 + dataByteLength) ++
  [87, 65, 86, 69] ++ [102, 109, 116, 32] ++ uint32LE 16 ++ uint16LE 1 ++
  uint16LE numChannels ++ uint32LE sampleRate ++
  uint32LE (sampleRate * numChannels * 2) ++ uint16LE (numChannels * 2) ++
  uint16LE 16 ++ [100, 97, 116, 97] ++ uint32LE dataByteLength

/-- Model of `audioBufferToWav`: the bytes of the produced Blob — the header
followed by the interleaved 16-bit little-endian samples. -/
def audioBufferToWav (b : AudioBuffer) : List Nat :=
  wavHeader b.numChannels b.sampleRate (2 * (wavData b).length) ++
    int16ListToBytes (wavData b)

/-- Read back a little-endian 16-bit field from a byte list. -/
def readLE16 (l : List Nat) (off : Nat) : Nat :=
  l.getD off 0 + 256 * l.getD (off + 1) 0

/-- Read back a little-endian 32-bit field from a byte list. -/
def readLE32 (l : List Nat) (off : Nat) : Nat :=
  l.getD off 0 + 256 * l.getD (off + 1) 0 + 65536 * l.getD (off + 2) 0 +
    16777216 * l.getD (off + 3) 0

/-- The base64 alphabet, in index order. -/
def b64Alphabet : List Char :=
  [ 'A', 'B', 'C', 'D', 'E', 'F', 'G', 'H', 'I', 'J', 'K', 'L', 'M',
    'N', 'O', 'P', 'Q', 'R', 'S', 'T', 'U', 'V', 'W', 'X', 'Y', 'Z',
    'a', 'b', 'c', 'd', 'e', 'f', 'g', 'h', 'i', 'j', 'k', 'l', 'm',
    'n', 'o', 'p', 'q', 'r', 's', 't', 'u', 'v', 'w', 'x', 'y', 'z',
    '0', '1', '2', '3', '4', '5', '6', '7', '8', '9', '+', '/']

/-- Index of a character in the base64 alphabet; `none` off the alphabet. -/
def b64Index (c : Char) : Option Nat := b64Alphabet.findIdx? (fun d => d = c)

/-- ASCII whitespace, the characters `atob` removes before decoding. -/
def isB64Ws (c : Char) : Bool :=
  c = ' ' ∨ c = '\t' ∨ c = '\n' ∨ c = '\x0c' ∨ c = '\r'

/-- Step 1 of forgiving-base64: remove all ASCII whitespace. -/
def stripWs (l : List Char) : List Char := l.filter fun c => !isB64Ws c

/-- Step 2 of forgiving-base64: if the length is a multiple of four, remove
one or two trailing padding characters. -/
def dropPad (l : List Char) : List Char :=
  if l.length % 4 = 0 then
    if l.reverse.take 2 = [ '=', '='] then (l.reverse.drop 2).reverse
    else if l.reverse.take 1 = [ '='] then (l.reverse.drop 1).reverse
    else l
  else l

/-- The bit-accumulation step of forgiving-base64: each group of four 6-bit
values yields three bytes; a trailing group of two or three values yields one
or two bytes, discarding the low leftover bits. -/
def decodeGroups : List Nat → List Nat
  | a :: b :: c :: d :: rest =>
      (a * 4 + b / 16) :: (b % 16 * 16 + c / 4) :: (c % 4 * 64 + d) ::
        decodeGroups rest
  | [a, b] => [a * 4 + b / 16]
  | [a, b, c] => [a * 4 + b / 16, b % 16 * 16 + c / 4]
  | _ => []

/-- Model of the platform `atob`: the forgiving-base64 decode of the HTML
standard — strip ASCII whitespace, strip permissible padding, fail when the
remaining length is 1 mod 4 or when any remaining character is outside the
base64 alphabet, and otherwise emit the decoded bytes (as the character codes
of the returned binary string). -/
def atob (s : String) : Option (List Nat) :=
  let d := dropPad (stripWs s.toList)
  if d.length % 4 = 1 then none
  else (d.mapM b64Index).map decodeGroups

/-- Model of `decodeBase64` (audio utilities module): call `atob` and copy
the character codes of the resulting binary string into a byte array. -/
def decodeBase64 (s : String) : Option (List Nat) := atob s

/-- Reference base64 encoder (RFC 4648), used to state that `decodeBase64`
returns the exact decoded byte sequence: decoding the standard encoding of
any byte sequence gives that byte sequence back.  Body characters, without
the padding. -/
def encodeNoPad : List Nat → List Char
  | x :: y :: z :: rest =>
      b64Alphabet.getD (x / 4) 'A' ::
      b64Alphabet.getD (x % 4 * 16 + y / 16) 'A' ::
      b64Alphabet.getD (y % 16 * 4 + z / 64) 'A' ::
      b64Alphabet.getD (z % 64) 'A' :: encodeNoPad rest
  | [x, y] =>
      [b64Alphabet.getD (x / 4) 'A',
       b64Alphabet.getD (x % 4 * 16 + y / 16) 'A',
       b64Alphabet.getD (y % 16 * 4) 'A']
  | [x] =>
      [b64Alphabet.getD (x / 4) 'A', b64Alphabet.getD (x % 4 * 16) 'A']
  | [] => []

/-- Padding characters of the reference base64 encoder. -/
def padOf : List Nat → List Char
  | _ :: _ :: _ :: rest => padOf rest
  | [_, _] => [ '=']
  | [_] => [ '=', '=']
  | [] => []

/-- Reference base64 encoder: body plus padding. -/
def base64Encode (bytes : List Nat) : String :=
  ⟨encodeNoPad bytes ++ padOf bytes⟩

/-- Lifecycle of one `AudioBufferSourceNode` after `start()`: still playing,
ended naturally, or stopped by `stop()`. -/
inductive SourceStatus
  | playing
  | finished
  | stopped
  deriving DecidableEq

/-- Model of the application state touched by the playback controller
(`App.tsx`): every source node created so far with its status, the
`sourceNodeRef` reference, the set of nodes currently connected into the
audio graph, the `isPlaying` / `hasAudio` / `error` React state, the cached
buffer `lastAudioBufferRef`, the number of triggered downloads, and a
fresh-id counter for nodes. -/
structure AppState where
  sources : List (Nat × SourceStatus)
  sourceNode : Option Nat
  connected : List Nat
  isPlaying : Bool
  hasAudio : Bool
  error : Option String
  lastAudioBuffer : Option AudioBuffer
  downloads : Nat
  nextId : Nat

/-- Status of a source node by id. -/
def lookupStatus (st : AppState) (id : Nat) : Option SourceStatus :=
  (st.sources.find? fun p => p.1 = id).map Prod.snd

/-- The attempt `sourceNodeRef.current.stop()`: succeeds on a playing node;
on a node that already ended or was already stopped it throws (the harmless
race the code catches and ignores). -/
def rawStop : SourceStatus → Except Unit SourceStatus
  | SourceStatus.playing => Except.ok SourceStatus.stopped
  | SourceStatus.finished => Except.error ()
  | SourceStatus.stopped => Except.error ()

/-- Update the recorded status of one source node. -/
def setStatus (sources : List (Nat × SourceStatus)) (id : Nat)
    (s : SourceStatus) : List (Nat × SourceStatus) :=
  sources.map fun p => if p.1 = id then (p.1, s) else p

/-- Model of `stopAudio`: when a source node is referenced, try to stop it
inside a try/catch whose catch block ignores the error, disconnect it, and
clear the reference; in every case synchronously set `isPlaying` false. -/
def stopAudio (st : AppState) : AppState :=
  match st.sourceNode with
  | none => { st with isPlaying := false }
  | some id =>
      let sources1 :=
        match lookupStatus st id with
        | some s =>
            match rawStop s with
            | Except.ok s1 => setStatus st.sources id s1
            | Except.error _ => st.sources
        | none => st.sources
      { st with
          sources := sources1
          connected := st.connected.erase id
          sourceNode := none
          isPlaying := false }

/-- Model of `playBuffer`: create a fresh source node bound to the buffer,
connect it through the shared analyser into the destination, store it in
`sourceNodeRef`, start it, and set `isPlaying` true.  (It does not itself
stop a previously referenced node; its callers do that first.) -/
def playBuffer (st : AppState) (_buffer : AudioBuffer) : AppState :=
  { st with
      sources := st.sources ++ [(st.nextId, SourceStatus.playing)]
      connected := st.connected ++ [st.nextId]
      sourceNode := some st.nextId
      isPlaying := true
      nextId := st.nextId + 1 }

/-- The `onended` completion callback of a source node: the node ends
naturally and `isPlaying` is set false. -/
def naturalEnd (st : AppState) (id : Nat) : AppState :=
  { st with
      sources := setStatus st.sources id SourceStatus.finished
      isPlaying := false }

/-- Model of `handleReplay`: return immediately when no buffer is cached,
otherwise stop the current audio and play the cached buffer. -/
def handleReplay (st : AppState) : AppState :=
  match st.lastAudioBuffer with
  | none => st
  | some b => playBuffer (stopAudio st) b

/-- Model of `handleDownload`: return immediately when no buffer is cached,
otherwise encode the cached buffer to WAV and trigger one download. -/
def handleDownload (st : AppState) : AppState :=
  match st.lastAudioBuffer with
  | none => st
  | some _ => { st with downloads := st.downloads + 1 }

/-- Number of source nodes currently in the playing state. -/
def countPlaying (st : AppState) : Nat :=
  (st.sources.filter fun p => p.2 = SourceStatus.playing).length

/-- Invariant maintained by the application handlers: every playing source
node is the one referenced by `sourceNodeRef`, node ids are distinct, and
every recorded node id and every connected id is below the fresh-id
counter. -/
def PlaybackInv (st : AppState) : Prop :=
  (∀ p ∈ st.sources, p.2 = SourceStatus.playing → st.sourceNode = some p.1) ∧
  (∀ p ∈ st.sources, p.1 < st.nextId) ∧
  (∀ id ∈ st.connected, id < st.nextId) ∧
  (st.sources.map Prod.fst).Nodup

/-- The whitespace set of the JavaScript `String.prototype.trim`: WhiteSpace
plus LineTerminator code points. -/
def isJsWs (c : Char) : Bool :=
  c.toNat ∈ [9, 10, 11, 12, 13, 32, 160, 5760,
    8192, 8193, 8194, 8195, 8196, 8197, 8198, 8199, 8200, 8201, 8202,
    8232, 8233, 8239, 8287, 12288, 65279]

/-- JavaScript `text.trim()`: drop leading and trailing whitespace. -/
def jsTrim (l : List Char) : List Char :=
  ((l.dropWhile isJsWs).reverse.dropWhile isJsWs).reverse

/-- Model of `generateJapaneseSpeech` (gemini service): if the trimmed text
is empty (an empty string is falsy), throw the message error before any
remote work; otherwise invoke the remote speech-generation call — abstracted
as an oracle returning either a failure message or an optional base64
payload — and propagate its outcome (`none` payload becomes the no-audio
error).  The boolean records whether the remote call was invoked. -/
def generateJapaneseSpeech
    (remote : String → String → Except String (Option String))
    (text voice : String) : Bool × Except String String :=
  if jsTrim text.toList = [] then
    (false, Except.error ("Please enter some Japanese text."))
  else
    match remote text voice with
    | Except.error e => (true, Except.error e)
    | Except.ok none =>
        (true, Except.error ("No audio data received from Gemini."))
    | Except.ok (some b64) => (true, Except.ok b64)

/-! General helper lemmas about the model. -/

theorem bytesToInt16List_length : ∀ l : List Nat,
    (bytesToInt16List l).length = l.length / 2
  | [] => by simp [bytesToInt16List]
  | [x] => by simp [bytesToInt16List]
  | lo :: hi :: rest => by
      have ih := bytesToInt16List_length rest
      simp [bytesToInt16List, ih]
      omega

theorem bytesToInt16List_getD : ∀ (l : List Nat) (k : Nat),
    2 * k + 1 < l.length →
    (bytesToInt16List l).getD k 0 =
      toInt16 (l.getD (2 * k) 0) (l.getD (2 * k + 1) 0)
  | [], k, h => by simp at h
  | [x], k, h => by
      simp only [List.length_cons, List.length_nil] at h
      omega
  | lo :: hi :: rest, 0, h => by simp [bytesToInt16List]
  | lo :: hi :: rest, k + 1, h => by
      have ih := bytesToInt16List_getD rest k (by simp at h ⊢; omega)
      have e1 : 2 * (k + 1) = 2 * k + 1 + 1 := by ring
      have e2 : 2 * (k + 1) + 1 = 2 * k + 1 + 1 + 1 := by ring
      simp only [bytesToInt16List, List.getD_cons_succ, ih, e1, e2]

theorem rangeMap_getD {α : Type} (n : Nat) (g : Nat → α) (d : α) (k : Nat)
    (hk : k < n) : ((List.range n).map g).getD k d = g k := by
  have hlen : k < ((List.range n).map g).length := by simpa using hk
  rw [List.getD_eq_getElem _ _ hlen, List.getElem_map, List.getElem_range]

theorem flattenRangeMap_length {α : Type} (L nc : Nat) (f : Nat → Nat → α) :
    (((List.range L).map fun i => (List.range nc).map (f i)).flatten).length =
      L * nc := by
  induction L with
  | zero => simp
  | succ m ih =>
      rw [List.range_succ, List.map_append, List.flatten_append]
      simp [ih, Nat.succ_mul]

theorem flattenRangeMap_getD {α : Type} (L nc : Nat) (f : Nat → Nat → α)
    (d : α) (i ch : Nat) (hi : i < L) (hch : ch < nc) :
    (((List.range L).map fun i => (List.range nc).map (f i)).flatten).getD
      (i * nc + ch) d = f i ch := by
  induction L with
  | zero => omega
  | succ m ih =>
      rw [List.range_succ, List.map_append, List.flatten_append]
      rcases Nat.lt_or_ge i m with hlt | hge
      · have hpos : i * nc + ch <
            (((List.range m).map fun i => (List.range nc).map (f i)).flatten).length := by
          rw [flattenRangeMap_length]
          have h1 : i * nc + ch < (i + 1) * nc := by
            have : (i + 1) * nc = i * nc + nc := by ring
            omega
          have h2 : (i + 1) * nc ≤ m * nc := Nat.mul_le_mul_right nc (by omega)
          omega
        rw [List.getD_append _ _ _ _ hpos]
        exact ih hlt
      · have hieq : i = m := by omega
        subst hieq
        have hlen : (((List.range i).map fun j => (List.range nc).map (f j)).flatten).length =
            i * nc := flattenRangeMap_length i nc f
        rw [List.getD_append_right _ _ _ _ (by omega)]
        rw [hlen]
        have : i * nc + ch - i * nc = ch := by omega
        rw [this]
        simp only [List.map_cons, List.map_nil, List.flatten_cons,
          List.flatten_nil, List.append_nil]
        exact rangeMap_getD nc (f i) d ch hch

theorem toInt16Wrap_eq_self (n : Int) (h1 : -32768 ≤ n) (h2 : n ≤ 32767) :
    toInt16Wrap n = n := by
  simp only [toInt16Wrap]
  omega

theorem toInt16Wrap_bounds (n : Int) :
    -32768 ≤ toInt16Wrap n ∧ toInt16Wrap n ≤ 32767 := by
  simp only [toInt16Wrap]
  omega

theorem toInt16_int16LEbytes (n : Int) :
    toInt16 ((int16LEbytes n).getD 0 0) ((int16LEbytes n).getD 1 0) =
      toInt16Wrap n := by
  simp only [int16LEbytes, toInt16, toInt16Wrap, List.getD_cons_zero,
    List.getD_cons_succ]
  omega

theorem int16ListToBytes_length : ∀ l : List Int,
    (int16ListToBytes l).length = 2 * l.length
  | [] => by simp [int16ListToBytes]
  | n :: rest => by
      have ih := int16ListToBytes_length rest
      simp [int16ListToBytes, int16LEbytes, ih]
      omega

theorem int16ListToBytes_getD : ∀ (l : List Int) (k : Nat), k < l.length →
    (int16ListToBytes l).getD (2 * k) 0 = (int16LEbytes (l.getD k 0)).getD 0 0 ∧
    (int16ListToBytes l).getD (2 * k + 1) 0 = (int16LEbytes (l.getD k 0)).getD 1 0
  | [], k, h => by simp at h
  | n :: rest, 0, h => by simp [int16ListToBytes, int16LEbytes]
  | n :: rest, k + 1, h => by
      have ih := int16ListToBytes_getD rest k (by simp at h; omega)
      have e1 : 2 * (k + 1) = 2 * k + 1 + 1 := by ring
      have e2 : 2 * (k + 1) + 1 = 2 * k + 1 + 1 + 1 := by ring
      constructor
      · rw [e1]
        simpa [int16ListToBytes, int16LEbytes] using ih.1
      · rw [e2]
        simpa [int16ListToBytes, int16LEbytes] using ih.2

theorem wavHeader_length (a b c : Nat) : (wavHeader a b c).length = 44 := rfl

theorem wavData_length (b : AudioBuffer) :
    (wavData b).length = b.length * b.numChannels :=
  flattenRangeMap_length b.length b.numChannels _

theorem wavData_getD (b : AudioBuffer) (i ch : Nat) (hi : i < b.length)
    (hch : ch < b.numChannels) :
    (wavData b).getD (i * b.numChannels + ch) 0 =
      encodeSample (channelSample b ch i) :=
  flattenRangeMap_getD b.length b.numChannels _ 0 i ch hi hch

theorem audioBufferToWav_drop44 (b : AudioBuffer) :
    (audioBufferToWav b).drop 44 = int16ListToBytes (wavData b) := by
  rw [audioBufferToWav, show (44 : Nat) =
    (wavHeader b.numChannels b.sampleRate (2 * (wavData b).length)).length from rfl]
  exact List.drop_left _ _

theorem audioBufferToWav_getD_payload (b : AudioBuffer) (k : Nat) :
    (audioBufferToWav b).getD (44 + k) 0 =
      (int16ListToBytes (wavData b)).getD k 0 := by
  rw [audioBufferToWav]
  rw [List.getD_append_right _ _ _ _ (by rw [wavHeader_length]; omega)]
  rw [wavHeader_length]
  congr 1
  omega

theorem clampSample_bounds (s : ℚ) :
    -1 ≤ clampSample s ∧ clampSample s ≤ 1 := by
  constructor
  · exact le_max_left _ _
  · exact max_le (by norm_num) (min_le_left _ _)

theorem clampSample_eq_self (s : ℚ) (h1 : -1 ≤ s) (h2 : s ≤ 1) :
    clampSample s = s := by
  rw [clampSample, min_eq_right h2, max_eq_right h1]

theorem jsTrunc_clamp_bounds (c : ℚ) (h1 : -1 ≤ c) (h2 : c ≤ 1) :
    -32768 ≤ jsTrunc (if c < 0 then c * 32768 else c * 32767) ∧
      jsTrunc (if c < 0 then c * 32768 else c * 32767) ≤ 32767 := by
  by_cases hneg : c < 0
  · rw [if_pos hneg, jsTrunc, if_pos (by nlinarith)]
    constructor
    · have hge : ((-32768 : Int) : ℚ) ≤ c * 32768 := by
        push_cast
        nlinarith
      calc (-32768 : Int) = ⌈((-32768 : Int) : ℚ)⌉ := (Int.ceil_intCast _).symm
        _ ≤ ⌈c * 32768⌉ := Int.ceil_mono hge
    · have hle : c * 32768 ≤ ((0 : Int) : ℚ) := by
        push_cast
        nlinarith
      have h0 := (Int.ceil_le (α := ℚ)).mpr hle
      omega
  · rw [if_neg hneg, jsTrunc, if_neg (by push_neg at hneg ⊢; nlinarith)]
    push_neg at hneg
    constructor
    · have h0 : (0 : Int) ≤ ⌊c * 32767⌋ := by
        rw [Int.le_floor]
        push_cast
        nlinarith
      omega
    · have hle : (⌊c * 32767⌋ : ℚ) ≤ 32767 := (Int.floor_le _).trans (by nlinarith)
      exact_mod_cast hle

theorem encodeSample_bounds (s : ℚ) :
    -32768 ≤ encodeSample s ∧ encodeSample s ≤ 32767 :=
  toInt16Wrap_bounds _

theorem encodeSample_eq_trunc (s : ℚ) :
    encodeSample s =
      jsTrunc (if clampSample s < 0 then clampSample s * 32768
        else clampSample s * 32767) := by
  rw [encodeSample]
  obtain ⟨h1, h2⟩ := clampSample_bounds s
  obtain ⟨b1, b2⟩ := jsTrunc_clamp_bounds (clampSample s) h1 h2
  exact toInt16Wrap_eq_self _ b1 b2

theorem encodeSample_roundTrip_bound (s : ℚ) (h1 : -1 ≤ s) (h2 : s ≤ 1) :
    |s - (encodeSample s : ℚ) / 32768| ≤ 2 / 32768 := by
  rw [encodeSample_eq_trunc, clampSample_eq_self s h1 h2]
  by_cases hneg : s < 0
  · rw [if_pos hneg, jsTrunc, if_pos (by nlinarith)]
    have hc1 : s * 32768 ≤ (⌈s * 32768⌉ : ℚ) := Int.le_ceil _
    have hc2 : (⌈s * 32768⌉ : ℚ) < s * 32768 + 1 := Int.ceil_lt_add_one _
    rw [abs_le]
    constructor <;> nlinarith
  · rw [if_neg hneg, jsTrunc, if_neg (by push_neg at hneg ⊢; nlinarith)]
    push_neg at hneg
    have hf1 : (⌊s * 32767⌋ : ℚ) ≤ s * 32767 := Int.floor_le _
    have hf2 : s * 32767 < (⌊s * 32767⌋ : ℚ) + 1 := Int.lt_floor_add_one _
    rw [abs_le]
    constructor <;> nlinarith

/-! Claim C1: the PCM decoder. -/

/-- C1 (amended): for a byte sequence of even length, a channel count in the
Web Audio nominal range [1, 32], a sample rate in the mandated supported
range [8000, 96000], and at least one complete frame, the PCM decoder
returns an AudioBuffer whose per-channel sample count is
byteLength / 2 / channelCount, each sample being the corresponding signed
16-bit little-endian value divided by 32768, de-interleaved per channel; a
trailing partial frame is dropped.  (The original claim extended this to
every raw byte sequence, every sample rate and every channel count; an odd
byte length makes the Int16Array construction fail instead, and arguments
outside the nominal ranges make `createBuffer` throw.) -/
theorem decodeAudioData_even_spec (data : List Nat) (sr nc : Nat)
    (heven : data.length % 2 = 0) (h1 : 1 ≤ nc) (h32 : nc ≤ 32)
    (hsr1 : 8000 ≤ sr) (hsr2 : sr ≤ 96000)
    (hfr : 1 ≤ data.length / 2 / nc) :
    ∃ buf, decodeAudioData data sr nc = some buf ∧
      buf.numChannels = nc ∧ buf.sampleRate = sr ∧
      buf.length = data.length / 2 / nc ∧
      ∀ ch, ch < nc → ∀ i, i < data.length / 2 / nc →
        channelSample buf ch i =
          ((toInt16 (data.getD (2 * (i * nc + ch)) 0)
              (data.getD (2 * (i * nc + ch) + 1) 0) : Int) : ℚ) / 32768 := by
  have hlen16 : (bytesToInt16List data).length = data.length / 2 :=
    bytesToInt16List_length data
  have hcond1 : ¬ data.length % 2 ≠ 0 := by omega
  have hcond2 : ¬ (nc < 1 ∨ 32 < nc) := by omega
  have hcondSR : ¬ (sr < 8000 ∨ 96000 < sr) := by omega
  have hcond3 : ¬ (bytesToInt16List data).length / nc = 0 := by
    rw [hlen16]; omega
  have hfc : (bytesToInt16List data).length / nc = data.length / 2 / nc := by
    rw [hlen16]
  have heq : decodeAudioData data sr nc = some
      ⟨nc, sr, (bytesToInt16List data).length / nc,
        (List.range nc).map fun ch =>
          (List.range ((bytesToInt16List data).length / nc)).map fun i =>
            (((bytesToInt16List data).getD (i * nc + ch) 0 : Int) : ℚ) / 32768⟩ := by
    simp only [decodeAudioData, if_neg hcond1, if_neg hcond2, if_neg hcondSR,
      if_neg hcond3]
  refine ⟨_, heq, rfl, rfl, hfc, ?_⟩
  intro ch hch i hi
  rw [channelSample]
  simp only
  rw [rangeMap_getD nc _ [] ch hch, hfc, rangeMap_getD _ _ 0 i hi]
  have hidx : 2 * (i * nc + ch) + 1 < data.length := by
    have hbound : i * nc + ch < data.length / 2 := by
      have hA : i * nc + ch < (i + 1) * nc := by
        have : (i + 1) * nc = i * nc + nc := by ring
        omega
      have hB : i + 1 ≤ data.length / 2 / nc := by omega
      have hC : (i + 1) * nc ≤ data.length / 2 / nc * nc :=
        Nat.mul_le_mul_right nc hB
      have hD : data.length / 2 / nc * nc ≤ data.length / 2 :=
        Nat.div_mul_le_self _ _
      omega
    omega
  rw [bytesToInt16List_getD data (i * nc + ch) hidx]

/-- C1 counterexample to the original claim: on the one-byte sequence
`[0]` with channel count 1 the decoder fails (odd byte length) instead of
returning a buffer with the partial frame dropped. -/
theorem decodeAudioData_oddLength_cex : decodeAudioData [0] 24000 1 = none := by
  rfl

/-- C1 witness: the four-byte sequence 00 00 FF 7F at 24000 Hz mono decodes
to two samples, 0 and 32767/32768. -/
theorem decodeAudioData_even_spec_witness :
    (4 : Nat) % 2 = 0 ∧
    ∃ buf, decodeAudioData [0, 0, 255, 127] 24000 1 = some buf ∧
      buf.numChannels = 1 ∧ buf.sampleRate = 24000 ∧
      buf.length = 4 / 2 / 1 ∧
      ∀ ch, ch < 1 → ∀ i, i < 4 / 2 / 1 →
        channelSample buf ch i =
          ((toInt16 ([0, 0, 255, 127].getD (2 * (i * 1 + ch)) 0)
              ([0, 0, 255, 127].getD (2 * (i * 1 + ch) + 1) 0) : Int) : ℚ) / 32768 := by
  refine ⟨by decide, ?_⟩
  have h := decodeAudioData_even_spec [0, 0, 255, 127] 24000 1
    (by decide) (by decide) (by decide) (by decide) (by decide) (by decide)
  simpa using h

/-! Claim C7: the PCM decoder on an empty byte sequence. -/

/-- C7 (amended): the PCM decoder applied to an empty byte sequence fails
(the zero frame count is rejected by `createBuffer`, whose nominal range
requires a length of at least 1) for every sample rate and channel count,
instead of returning a zero-sample AudioBuffer. -/
theorem decodeAudioData_empty (sr nc : Nat) :
    decodeAudioData [] sr nc = none := by
  rw [decodeAudioData]
  simp [bytesToInt16List]

/-- C7 counterexample to the original claim: at the default 24000 Hz mono
arguments the decoder returns failure on the empty byte sequence, not a
zero-sample AudioBuffer. -/
theorem decodeAudioData_empty_cex :
    decodeAudioData [] 24000 1 = none := by rfl

/-! Claims C8 and C10: the playback controller handlers. -/

/-- An idle application state, before any generation or playback. -/
def idleState : AppState :=
  ⟨[], none, [], false, false, none, none, 0, 0⟩

/-- An application state whose referenced source node has already ended
naturally (its `onended` callback ran but nothing cleared the reference). -/
def finishedState : AppState :=
  ⟨[(0, SourceStatus.finished)], some 0, [0], false, true, none, none, 0, 1⟩

/-- C8: `stopAudio` always returns normally and synchronously sets the
playback state to stopped; when no source node is referenced (no play call
ever happened, or a previous stop already cleared it) it changes nothing but
`isPlaying`; and when the referenced source has already finished, the error
thrown by `stop()` is swallowed: the handler still completes, leaving the
recorded node statuses untouched and clearing the reference. -/
theorem stopAudio_spec (st : AppState) :
    (stopAudio st).isPlaying = false ∧
    (st.sourceNode = none → stopAudio st = { st with isPlaying := false }) ∧
    (∀ id, st.sourceNode = some id →
      lookupStatus st id = some SourceStatus.finished →
      (stopAudio st).sources = st.sources ∧ (stopAudio st).sourceNode = none) := by
  refine ⟨?_, ?_, ?_⟩
  · rcases h : st.sourceNode with _ | id <;> simp [stopAudio, h]
  · intro h
    simp [stopAudio, h]
  · intro id h hlook
    simp [stopAudio, h, hlook, rawStop]

/-- C8 witness: on the idle state `stopAudio` is a pure no-op that leaves
`isPlaying` false, and on a state whose referenced source already finished it
swallows the stop error, keeps the statuses, and clears the reference. -/
theorem stopAudio_spec_witness :
    (stopAudio idleState).isPlaying = false ∧
    stopAudio idleState = { idleState with isPlaying := false } ∧
    (stopAudio finishedState).sources = finishedState.sources ∧
    (stopAudio finishedState).sourceNode = none := by
  have h1 := (stopAudio_spec idleState).1
  have h2 := (stopAudio_spec idleState).2.1 rfl
  have h3 := (stopAudio_spec finishedState).2.2 0 rfl (by rfl)
  exact ⟨h1, h2, h3.1, h3.2⟩

/-- C10: when no AudioBuffer is cached, `handleReplay` and `handleDownload`
both return the state unchanged: no playback starts, no download is
triggered, no error is raised, and `isPlaying`, `hasAudio` and the error
message are untouched. -/
theorem handlers_noBuffer_noop (st : AppState)
    (h : st.lastAudioBuffer = none) :
    handleReplay st = st ∧ handleDownload st = st := by
  constructor
  · simp [handleReplay, h]
  · simp [handleDownload, h]

/-- C10 witness: on the idle state, which caches no buffer, both handlers
return the state unchanged. -/
theorem handlers_noBuffer_noop_witness :
    idleState.lastAudioBuffer = none ∧
    handleReplay idleState = idleState ∧ handleDownload idleState = idleState := by
  have h := handlers_noBuffer_noop idleState rfl
  exact ⟨rfl, h.1, h.2⟩

/-! Claim C9: the speech-generation guard. -/

theorem jsTrim_eq_nil_iff (l : List Char) :
    jsTrim l = [] ↔ ∀ c ∈ l, isJsWs c = true := by
  rw [jsTrim]
  constructor
  · intro h c hc
    rw [List.reverse_eq_nil_iff, List.dropWhile_eq_nil_iff] at h
    have hall : ∀ c ∈ l.dropWhile isJsWs, isJsWs c = true := by
      intro x hx
      exact h x (List.mem_reverse.mpr hx)
    rcases (List.mem_append.mp
      ((List.takeWhile_append_dropWhile isJsWs l) ▸ hc)) with htk | hdr
    · exact List.mem_takeWhile_imp htk
    · exact hall _ hdr
  · intro h
    have h1 : l.dropWhile isJsWs = [] :=
      List.dropWhile_eq_nil_iff.mpr fun x hx => h x hx
    simp [h1]

/-- C9: for every text that is empty or consists only of whitespace,
`generateJapaneseSpeech` throws the error "Please enter some Japanese text."
without invoking the remote speech-generation call; when the text has at
least one non-whitespace character, the remote call is invoked. -/
theorem generateJapaneseSpeech_guard
    (remote : String → String → Except String (Option String))
    (text voice : String) :
    ((∀ c ∈ text.toList, isJsWs c = true) →
      generateJapaneseSpeech remote text voice =
        (false, Except.error ("Please enter some Japanese text."))) ∧
    ((∃ c ∈ text.toList, isJsWs c = false) →
      (generateJapaneseSpeech remote text voice).1 = true) := by
  constructor
  · intro h
    rw [generateJapaneseSpeech, if_pos ((jsTrim_eq_nil_iff _).mpr h)]
  · intro h
    have hne : ¬ jsTrim text.toList = [] := by
      intro hnil
      obtain ⟨c, hc, hfalse⟩ := h
      rw [(jsTrim_eq_nil_iff _).mp hnil c hc] at hfalse
      exact Bool.noConfusion hfalse
    rw [generateJapaneseSpeech, if_neg hne]
    rcases remote text voice with e | p
    · rfl
    · rcases p with _ | b64 <;> rfl

/-- C9 witness: a three-space text triggers the guard error without a remote
call, while the text "a" reaches the remote call. -/
theorem generateJapaneseSpeech_guard_witness :
    generateJapaneseSpeech (fun _ _ => Except.ok none) ("   ") ("Kore") =
      (false, Except.error ("Please enter some Japanese text.")) ∧
    (generateJapaneseSpeech (fun _ _ => Except.ok none) ("a") ("Kore")).1 = true := by
  constructor
  · exact (generateJapaneseSpeech_guard (fun _ _ => Except.ok none)
      ("   ") ("Kore")).1 (by decide)
  · exact (generateJapaneseSpeech_guard (fun _ _ => Except.ok none)
      ("a") ("Kore")).2 ⟨ 'a', by decide, by decide⟩

/-! Claim C2: the WAV header. -/

theorem wavHeader_shape (a c d : Nat) :
    wavHeader a c d =
      [82, 73, 70, 70,
       (36 + d) % 256, (36 + d) / 256 % 256, (36 + d) / 65536 % 256,
       (36 + d) / 16777216 % 256,
       87, 65, 86, 69, 102, 109, 116, 32,
       16, 0, 0, 0,
       1, 0,
       a % 256, a / 256 % 256,
       c % 256, c / 256 % 256, c / 65536 % 256, c / 16777216 % 256,
       c * a * 2 % 256, c * a * 2 / 256 % 256, c * a * 2 / 65536 % 256,
       c * a * 2 / 16777216 % 256,
       a * 2 % 256, a * 2 / 256 % 256,
       16, 0,
       100, 97, 116, 97,
       d % 256, d / 256 % 256, d / 65536 % 256, d / 16777216 % 256] := by
  simp [wavHeader, uint32LE, uint16LE]

/-- C2: the output of `audioBufferToWav` starts with a 44-byte header whose
bytes 0–3 are "RIFF", 8–11 are "WAVE", 12–15 are "fmt ", 36–39 are "data";
whose little-endian fields hold the format tag 1, the channel count, the
sample rate, byte rate = sampleRate*channels*2, block align = channels*2,
and bits-per-sample 16; and whose RIFF size and data-chunk size fields
exactly equal the actual payload sizes (the data-chunk size is the byte
count following the header, and the RIFF size is that plus 36).  The size
hypotheses keep the stored 16/32-bit fields below their wrap-around. -/
theorem audioBufferToWav_header_spec (b : AudioBuffer)
    (hnc : b.numChannels ≤ 32)
    (hbr : b.sampleRate * b.numChannels * 2 < 4294967296)
    (hsr : b.sampleRate < 4294967296)
    (hsz : 36 + 2 * (b.length * b.numChannels) < 4294967296) :
    (audioBufferToWav b).length = 44 + 2 * (b.length * b.numChannels) ∧
    [(audioBufferToWav b).getD 0 0, (audioBufferToWav b).getD 1 0,
      (audioBufferToWav b).getD 2 0, (audioBufferToWav b).getD 3 0] =
        [82, 73, 70, 70] ∧
    [(audioBufferToWav b).getD 8 0, (audioBufferToWav b).getD 9 0,
      (audioBufferToWav b).getD 10 0, (audioBufferToWav b).getD 11 0] =
        [87, 65, 86, 69] ∧
    [(audioBufferToWav b).getD 12 0, (audioBufferToWav b).getD 13 0,
      (audioBufferToWav b).getD 14 0, (audioBufferToWav b).getD 15 0] =
        [102, 109, 116, 32] ∧
    [(audioBufferToWav b).getD 36 0, (audioBufferToWav b).getD 37 0,
      (audioBufferToWav b).getD 38 0, (audioBufferToWav b).getD 39 0] =
        [100, 97, 116, 97] ∧
    readLE32 (audioBufferToWav b) 4 = 36 + ((audioBufferToWav b).length - 44) ∧
    readLE16 (audioBufferToWav b) 20 = 1 ∧
    readLE16 (audioBufferToWav b) 22 = b.numChannels ∧
    readLE32 (audioBufferToWav b) 24 = b.sampleRate ∧
    readLE32 (audioBufferToWav b) 28 = b.sampleRate * b.numChannels * 2 ∧
    readLE16 (audioBufferToWav b) 32 = b.numChannels * 2 ∧
    readLE16 (audioBufferToWav b) 34 = 16 ∧
    readLE32 (audioBufferToWav b) 40 = (audioBufferToWav b).length - 44 := by
  have hH := wavHeader_shape b.numChannels b.sampleRate (2 * (wavData b).length)
  have hlen : (audioBufferToWav b).length = 44 + 2 * (b.length * b.numChannels) := by
    rw [audioBufferToWav, List.length_append, wavHeader_length,
      int16ListToBytes_length, wavData_length]
  have htrans : ∀ k, k < 44 → (audioBufferToWav b).getD k 0 =
      (wavHeader b.numChannels b.sampleRate (2 * (wavData b).length)).getD k 0 := by
    intro k hk
    rw [audioBufferToWav]
    exact List.getD_append _ _ _ _ (by rw [wavHeader_length]; exact hk)
  have hdl : (wavData b).length = b.length * b.numChannels := wavData_length b
  refine ⟨hlen, ?_, ?_, ?_, ?_, ?_, ?_, ?_, ?_, ?_, ?_, ?_, ?_⟩
  · rw [htrans 0 (by omega), htrans 1 (by omega), htrans 2 (by omega),
      htrans 3 (by omega), hH]
    simp only [List.getD_cons_succ, List.getD_cons_zero]
  · rw [htrans 8 (by omega), htrans 9 (by omega), htrans 10 (by omega),
      htrans 11 (by omega), hH]
    simp only [List.getD_cons_succ, List.getD_cons_zero]
  · rw [htrans 12 (by omega), htrans 13 (by omega), htrans 14 (by omega),
      htrans 15 (by omega), hH]
    simp only [List.getD_cons_succ, List.getD_cons_zero]
  · rw [htrans 36 (by omega), htrans 37 (by omega), htrans 38 (by omega),
      htrans 39 (by omega), hH]
    simp only [List.getD_cons_succ, List.getD_cons_zero]
  · rw [readLE32, htrans 4 (by omega), htrans 5 (by omega), htrans 6 (by omega),
      htrans 7 (by omega), hH]
    simp only [List.getD_cons_succ, List.getD_cons_zero]
    rw [hdl, hlen]
    omega
  · rw [readLE16, htrans 20 (by omega), htrans 21 (by omega), hH]
    simp only [List.getD_cons_succ, List.getD_cons_zero]
  · rw [readLE16, htrans 22 (by omega), htrans 23 (by omega), hH]
    simp only [List.getD_cons_succ, List.getD_cons_zero]
    omega
  · rw [readLE32, htrans 24 (by omega), htrans 25 (by omega), htrans 26 (by omega),
      htrans 27 (by omega), hH]
    simp only [List.getD_cons_succ, List.getD_cons_zero]
    omega
  · rw [readLE32, htrans 28 (by omega), htrans 29 (by omega), htrans 30 (by omega),
      htrans 31 (by omega), hH]
    simp only [List.getD_cons_succ, List.getD_cons_zero]
    omega
  · rw [readLE16, htrans 32 (by omega), htrans 33 (by omega), hH]
    simp only [List.getD_cons_succ, List.getD_cons_zero]
    omega
  · rw [readLE16, htrans 34 (by omega), htrans 35 (by omega), hH]
    simp only [List.getD_cons_succ, List.getD_cons_zero]
  · rw [readLE32, htrans 40 (by omega), htrans 41 (by omega), htrans 42 (by omega),
      htrans 43 (by omega), hH]
    simp only [List.getD_cons_succ, List.getD_cons_zero]
    rw [hdl, hlen]
    omega

/-- C2 witness: a one-sample mono buffer at 24000 Hz satisfies the header
specification. -/
theorem audioBufferToWav_header_spec_witness :
    (1 : Nat) ≤ 32 ∧
    ((audioBufferToWav ⟨1, 24000, 1, [[0]]⟩).length = 44 + 2 * (1 * 1) ∧
      [(audioBufferToWav ⟨1, 24000, 1, [[0]]⟩).getD 0 0,
        (audioBufferToWav ⟨1, 24000, 1, [[0]]⟩).getD 1 0,
        (audioBufferToWav ⟨1, 24000, 1, [[0]]⟩).getD 2 0,
        (audioBufferToWav ⟨1, 24000, 1, [[0]]⟩).getD 3 0] = [82, 73, 70, 70] ∧
      [(audioBufferToWav ⟨1, 24000, 1, [[0]]⟩).getD 8 0,
        (audioBufferToWav ⟨1, 24000, 1, [[0]]⟩).getD 9 0,
        (audioBufferToWav ⟨1, 24000, 1, [[0]]⟩).getD 10 0,
        (audioBufferToWav ⟨1, 24000, 1, [[0]]⟩).getD 11 0] = [87, 65, 86, 69] ∧
      [(audioBufferToWav ⟨1, 24000, 1, [[0]]⟩).getD 12 0,
        (audioBufferToWav ⟨1, 24000, 1, [[0]]⟩).getD 13 0,
        (audioBufferToWav ⟨1, 24000, 1, [[0]]⟩).getD 14 0,
        (audioBufferToWav ⟨1, 24000, 1, [[0]]⟩).getD 15 0] = [102, 109, 116, 32] ∧
      [(audioBufferToWav ⟨1, 24000, 1, [[0]]⟩).getD 36 0,
        (audioBufferToWav ⟨1, 24000, 1, [[0]]⟩).getD 37 0,
        (audioBufferToWav ⟨1, 24000, 1, [[0]]⟩).getD 38 0,
        (audioBufferToWav ⟨1, 24000, 1, [[0]]⟩).getD 39 0] = [100, 97, 116, 97] ∧
      readLE32 (audioBufferToWav ⟨1, 24000, 1, [[0]]⟩) 4 =
        36 + ((audioBufferToWav ⟨1, 24000, 1, [[0]]⟩).length - 44) ∧
      readLE16 (audioBufferToWav ⟨1, 24000, 1, [[0]]⟩) 20 = 1 ∧
      readLE16 (audioBufferToWav ⟨1, 24000, 1, [[0]]⟩) 22 = 1 ∧
      readLE32 (audioBufferToWav ⟨1, 24000, 1, [[0]]⟩) 24 = 24000 ∧
      readLE32 (audioBufferToWav ⟨1, 24000, 1, [[0]]⟩) 28 = 24000 * 1 * 2 ∧
      readLE16 (audioBufferToWav ⟨1, 24000, 1, [[0]]⟩) 32 = 1 * 2 ∧
      readLE16 (audioBufferToWav ⟨1, 24000, 1, [[0]]⟩) 34 = 16 ∧
      readLE32 (audioBufferToWav ⟨1, 24000, 1, [[0]]⟩) 40 =
        (audioBufferToWav ⟨1, 24000, 1, [[0]]⟩).length - 44) := by
  refine ⟨by decide, ?_⟩
  exact audioBufferToWav_header_spec ⟨1, 24000, 1, [[0]]⟩
    (by decide) (by decide) (by decide) (by decide)

/-! Claim C3: the sample encoding of the WAV encoder. -/

/-- C3: the 16-bit value the WAV encoder stores for sample `i` of channel
`ch` — read back as a signed little-endian 16-bit integer from the two
payload bytes at offset 44 + 2*(i*numChannels + ch) — is obtained by
clamping the sample to [-1, 1] and then scaling it by 32768 when the clamped
value is negative and by 32767 otherwise (the store truncating the scaled
value toward zero). -/
theorem wav_sample_clamp_scale (b : AudioBuffer) (ch i : Nat)
    (hch : ch < b.numChannels) (hi : i < b.length) :
    toInt16 ((audioBufferToWav b).getD (44 + 2 * (i * b.numChannels + ch)) 0)
        ((audioBufferToWav b).getD (44 + 2 * (i * b.numChannels + ch) + 1) 0) =
      jsTrunc (if clampSample (channelSample b ch i) < 0
        then clampSample (channelSample b ch i) * 32768
        else clampSample (channelSample b ch i) * 32767) := by
  have hpos : i * b.numChannels + ch < (wavData b).length := by
    rw [wavData_length]
    have hA : i * b.numChannels + ch < (i + 1) * b.numChannels := by
      have : (i + 1) * b.numChannels = i * b.numChannels + b.numChannels := by ring
      omega
    have hB : (i + 1) * b.numChannels ≤ b.length * b.numChannels :=
      Nat.mul_le_mul_right _ (by omega)
    omega
  have hbytes := int16ListToBytes_getD (wavData b) (i * b.numChannels + ch) hpos
  have e1 : 44 + 2 * (i * b.numChannels + ch) + 1 =
      44 + (2 * (i * b.numChannels + ch) + 1) := by ring
  rw [audioBufferToWav_getD_payload, e1, audioBufferToWav_getD_payload,
    hbytes.1, hbytes.2, toInt16_int16LEbytes,
    wavData_getD b i ch hi hch]
  rw [encodeSample_eq_trunc]
  have hc := clampSample_bounds (channelSample b ch i)
  have hb := jsTrunc_clamp_bounds (clampSample (channelSample b ch i)) hc.1 hc.2
  exact toInt16Wrap_eq_self _ hb.1 hb.2

/-- C3 witness: for the one-sample mono buffer holding 1/2 the stored 16-bit
value equals the clamp-and-scale formula at that sample. -/
theorem wav_sample_clamp_scale_witness :
    (0 : Nat) < 1 ∧
    toInt16 ((audioBufferToWav ⟨1, 24000, 1, [[1/2]]⟩).getD (44 + 2 * (0 * 1 + 0)) 0)
        ((audioBufferToWav ⟨1, 24000, 1, [[1/2]]⟩).getD (44 + 2 * (0 * 1 + 0) + 1) 0) =
      jsTrunc (if clampSample (channelSample ⟨1, 24000, 1, [[1/2]]⟩ 0 0) < 0
        then clampSample (channelSample ⟨1, 24000, 1, [[1/2]]⟩ 0 0) * 32768
        else clampSample (channelSample ⟨1, 24000, 1, [[1/2]]⟩ 0 0) * 32767) :=
  ⟨by decide, wav_sample_clamp_scale ⟨1, 24000, 1, [[1/2]]⟩ 0 0 (by decide) (by decide)⟩

/-! Claim C4: the WAV/PCM round trip. -/

theorem bytesToInt16List_int16ListToBytes : ∀ l : List Int,
    bytesToInt16List (int16ListToBytes l) = l.map toInt16Wrap
  | [] => rfl
  | n :: rest => by
      have ih := bytesToInt16List_int16ListToBytes rest
      have h2 : int16ListToBytes (n :: rest) =
          (n % 65536).toNat % 256 :: (n % 65536).toNat / 256 ::
            int16ListToBytes rest := by
        simp [int16ListToBytes, int16LEbytes]
      rw [h2]
      simp only [bytesToInt16List, List.map_cons, ih]
      congr 1
      simp only [toInt16, toInt16Wrap]
      omega

theorem wavData_wrap (b : AudioBuffer) :
    (wavData b).map toInt16Wrap = wavData b := by
  have h : ∀ x ∈ wavData b, toInt16Wrap x = id x := by
    intro x hx
    rw [wavData] at hx
    rw [List.mem_flatten] at hx
    obtain ⟨l, hl, hxl⟩ := hx
    rw [List.mem_map] at hl
    obtain ⟨i, _, hli⟩ := hl
    rw [← hli, List.mem_map] at hxl
    obtain ⟨ch, _, hch⟩ := hxl
    rw [← hch]
    exact toInt16Wrap_eq_self _ (encodeSample_bounds _).1 (encodeSample_bounds _).2
  rw [List.map_congr_left h, List.map_id]

/-- C4 (amended): for every AudioBuffer with samples in [-1, 1], encoding to
WAV and decoding the data section (the bytes after the 44-byte header) back
through the PCM decoder yields an AudioBuffer each of whose samples differs
from the original by at most 2/32768.  (The original bound 1/32768 fails
near +1: non-negative samples are scaled by 32767 on encode but divided by
32768 on decode, which adds up to one extra quantum of error.)  The buffer's
sample rate is assumed in the Web Audio supported range [8000, 96000], which
every constructible AudioBuffer satisfies. -/
theorem wav_pcm_roundTrip (b : AudioBuffer)
    (hch : b.data.length = b.numChannels)
    (hcl : ∀ c ∈ b.data, c.length = b.length)
    (h1 : 1 ≤ b.numChannels) (h32 : b.numChannels ≤ 32) (hL : 1 ≤ b.length)
    (hsr1 : 8000 ≤ b.sampleRate) (hsr2 : b.sampleRate ≤ 96000)
    (hrange : ∀ c ∈ b.data, ∀ s ∈ c, -1 ≤ s ∧ s ≤ 1) :
    ∃ b2, decodeAudioData ((audioBufferToWav b).drop 44) b.sampleRate
        b.numChannels = some b2 ∧
      b2.length = b.length ∧ b2.numChannels = b.numChannels ∧
      ∀ ch, ch < b.numChannels → ∀ i, i < b.length →
        |channelSample b ch i - channelSample b2 ch i| ≤ 2 / 32768 := by
  have hdrop : (audioBufferToWav b).drop 44 = int16ListToBytes (wavData b) :=
    audioBufferToWav_drop44 b
  have hplen : (int16ListToBytes (wavData b)).length = 2 * (wavData b).length :=
    int16ListToBytes_length _
  have hwd : (wavData b).length = b.length * b.numChannels := wavData_length b
  have hi16 : bytesToInt16List (int16ListToBytes (wavData b)) = wavData b := by
    rw [bytesToInt16List_int16ListToBytes]
    exact wavData_wrap b
  have hcond1 : ¬ (int16ListToBytes (wavData b)).length % 2 ≠ 0 := by omega
  have hcond2 : ¬ (b.numChannels < 1 ∨ 32 < b.numChannels) := by omega
  have hcondSR : ¬ (b.sampleRate < 8000 ∨ 96000 < b.sampleRate) := by omega
  have hfc : (bytesToInt16List (int16ListToBytes (wavData b))).length /
      b.numChannels = b.length := by
    rw [hi16, hwd]
    exact Nat.mul_div_cancel b.length (by omega)
  have hcond3 : ¬ (bytesToInt16List (int16ListToBytes (wavData b))).length /
      b.numChannels = 0 := by
    rw [hfc]; omega
  have heq : decodeAudioData (int16ListToBytes (wavData b)) b.sampleRate
      b.numChannels = some
      ⟨b.numChannels, b.sampleRate,
        (bytesToInt16List (int16ListToBytes (wavData b))).length / b.numChannels,
        (List.range b.numChannels).map fun ch =>
          (List.range ((bytesToInt16List (int16ListToBytes (wavData b))).length /
              b.numChannels)).map fun i =>
            (((bytesToInt16List (int16ListToBytes (wavData b))).getD
                (i * b.numChannels + ch) 0 : Int) : ℚ) / 32768⟩ := by
    simp only [decodeAudioData, if_neg hcond1, if_neg hcond2, if_neg hcondSR,
      if_neg hcond3]
  rw [hfc, hi16] at heq
  rw [hdrop]
  refine ⟨_, heq, rfl, rfl, ?_⟩
  intro ch hchlt i hilt
  have hsample : channelSample
      (⟨b.numChannels, b.sampleRate, b.length,
        (List.range b.numChannels).map fun ch =>
          (List.range b.length).map fun i =>
            (((wavData b).getD (i * b.numChannels + ch) 0 : Int) : ℚ) / 32768⟩ :
        AudioBuffer) ch i =
      ((encodeSample (channelSample b ch i) : Int) : ℚ) / 32768 := by
    rw [channelSample]
    simp only
    rw [rangeMap_getD _ _ [] ch hchlt, rangeMap_getD _ _ 0 i hilt,
      wavData_getD b i ch hilt hchlt]
  rw [hsample]
  have hchmem : b.data.getD ch [] ∈ b.data := by
    rw [List.getD_eq_getElem b.data [] (show ch < b.data.length by omega)]
    exact List.getElem_mem _
  have hmem : (b.data.getD ch []).getD i 0 ∈ b.data.getD ch [] := by
    have hclen : (b.data.getD ch []).length = b.length := hcl _ hchmem
    rw [List.getD_eq_getElem (b.data.getD ch []) 0
      (show i < (b.data.getD ch []).length by omega)]
    exact List.getElem_mem _
  have hs := hrange _ hchmem _ hmem
  exact encodeSample_roundTrip_bound (channelSample b ch i) hs.1 hs.2

/-- C4 witness: the one-sample mono buffer holding 1/2 round-trips within
2/32768. -/
theorem wav_pcm_roundTrip_witness :
    (1 : Nat) ≤ 1 ∧
    ∃ b2, decodeAudioData ((audioBufferToWav ⟨1, 24000, 1, [[1/2]]⟩).drop 44)
        24000 1 = some b2 ∧
      b2.length = 1 ∧ b2.numChannels = 1 ∧
      ∀ ch, ch < 1 → ∀ i, i < 1 →
        |channelSample ⟨1, 24000, 1, [[1/2]]⟩ ch i - channelSample b2 ch i| ≤
          2 / 32768 := by
  refine ⟨le_refl 1, ?_⟩
  have h := wav_pcm_roundTrip ⟨1, 24000, 1, [[1/2]]⟩ (by decide)
    (by simp) (by decide) (by decide) (by decide) (by decide) (by decide)
    (by intro c hc s hs; simp at hc; subst hc; simp at hs; subst hs; norm_num)
  simpa using h

/-- The round-trip counterexample input: one sample just below +1
(the largest float32 below 1). -/
def rtCexIn : AudioBuffer := ⟨1, 24000, 1, [[16777215 / 16777216]]⟩

/-- What the round trip returns for `rtCexIn`: 32766/32768. -/
def rtCexOut : AudioBuffer := ⟨1, 24000, 1, [[16383 / 16384]]⟩

/-- C4 counterexample to the original claim: the sample 16777215/16777216
(a float32 value in [-1, 1]) encodes to 32766 and decodes to 16383/16384,
a difference of 1023/2^24 > 1/32768. -/
theorem wav_pcm_roundTrip_cex :
    decodeAudioData ((audioBufferToWav rtCexIn).drop 44) 24000 1 =
      some rtCexOut ∧
    ¬ (|channelSample rtCexIn 0 0 - channelSample rtCexOut 0 0| ≤ 1 / 32768) := by
  have hs : encodeSample ((16777215 : ℚ) / 16777216) = 32766 := by
    rw [encodeSample_eq_trunc,
      clampSample_eq_self _ (by norm_num) (by norm_num),
      if_neg (show ¬ ((16777215 : ℚ) / 16777216 < 0) by norm_num),
      jsTrunc,
      if_neg (show ¬ ((16777215 : ℚ) / 16777216 * 32767 < 0) by norm_num)]
    rw [Int.floor_eq_iff]
    constructor <;> norm_num
  have hr1 : List.range 1 = [0] := rfl
  have hw : wavData rtCexIn = [32766] := by
    simp only [wavData, rtCexIn, hr1, List.map_cons, List.map_nil,
      List.flatten_cons, List.flatten_nil, List.append_nil]
    rw [show channelSample ⟨1, 24000, 1, [[16777215 / 16777216]]⟩ 0 0 =
      ((16777215 : ℚ) / 16777216) by simp [channelSample]]
    rw [hs]
  have hbytes : int16ListToBytes [32766] = [254, 127] := by decide
  have hwav : (audioBufferToWav rtCexIn).drop 44 = [254, 127] := by
    rw [audioBufferToWav_drop44, hw, hbytes]
  constructor
  · rw [hwav]
    have h1 : bytesToInt16List [254, 127] = [32766] := by decide
    simp only [decodeAudioData, h1]
    norm_num [rtCexOut, hr1]
  · simp only [channelSample, rtCexIn, rtCexOut, List.getD_cons_zero]
    intro habs
    rw [abs_le] at habs
    have h2 := habs.2
    norm_num at h2

/-! Claim C5: two plays in succession keep a single active session. -/

theorem nodupKeys_eq {l : List (Nat × SourceStatus)}
    (h : (l.map Prod.fst).Nodup) {p q : Nat × SourceStatus}
    (hp : p ∈ l) (hq : q ∈ l) (hfst : p.1 = q.1) : p = q := by
  induction l with
  | nil => cases hp
  | cons x t ih =>
      rw [List.map_cons, List.nodup_cons] at h
      rcases List.mem_cons.mp hp with hpx | hpt <;>
        rcases List.mem_cons.mp hq with hqx | hqt
      · rw [hpx, hqx]
      · exfalso
        apply h.1
        rw [List.mem_map]
        exact ⟨q, hqt, by rw [← hfst, hpx]⟩
      · exfalso
        apply h.1
        rw [List.mem_map]
        exact ⟨p, hpt, by rw [hfst, hqx]⟩
      · exact ih h.2 hpt hqt

theorem setStatus_map_fst (l : List (Nat × SourceStatus)) (id : Nat)
    (s : SourceStatus) : (setStatus l id s).map Prod.fst = l.map Prod.fst := by
  rw [setStatus, List.map_map]
  apply List.map_congr_left
  intro p _
  by_cases hp : p.1 = id <;> simp [hp]

theorem setStatus_not_mem (l : List (Nat × SourceStatus)) (nid : Nat)
    (s : SourceStatus) (h : ∀ p ∈ l, p.1 ≠ nid) : setStatus l nid s = l := by
  have heq : l.map (fun p => if p.1 = nid then (p.1, s) else p) =
      l.map (fun p => p) :=
    List.map_congr_left fun p hp => by simp [h p hp]
  rw [setStatus, heq, List.map_id']

theorem stopAudio_sourceNode (st : AppState) :
    (stopAudio st).sourceNode = none := by
  rcases hsn : st.sourceNode with _ | nid <;> simp [stopAudio, hsn]

theorem stopAudio_nextId (st : AppState) :
    (stopAudio st).nextId = st.nextId := by
  rcases hsn : st.sourceNode with _ | nid <;> simp [stopAudio, hsn]

theorem stopAudio_lastAudioBuffer (st : AppState) :
    (stopAudio st).lastAudioBuffer = st.lastAudioBuffer := by
  rcases hsn : st.sourceNode with _ | nid <;> simp [stopAudio, hsn]

theorem stopAudio_map_fst (st : AppState) :
    (stopAudio st).sources.map Prod.fst = st.sources.map Prod.fst := by
  rcases hsn : st.sourceNode with _ | nid
  · simp [stopAudio, hsn]
  · simp only [stopAudio, hsn]
    rcases hlk : lookupStatus st nid with _ | s
    · simp
    · rcases s <;> simp [rawStop, setStatus_map_fst]

theorem stopAudio_connected_sub (st : AppState) :
    ∀ x ∈ (stopAudio st).connected, x ∈ st.connected := by
  intro x hx
  rcases hsn : st.sourceNode with _ | nid
  · simp only [stopAudio, hsn] at hx
    exact hx
  · simp only [stopAudio, hsn] at hx
    exact List.mem_of_mem_erase hx

theorem stopAudio_no_playing (st : AppState) (hInv : PlaybackInv st) :
    ∀ p ∈ (stopAudio st).sources, p.2 ≠ SourceStatus.playing := by
  obtain ⟨hplay, hids, hconn, hnodup⟩ := hInv
  intro p hp hpl
  rcases hsn : st.sourceNode with _ | nid
  · simp only [stopAudio, hsn] at hp
    have h0 := hplay p hp hpl
    rw [hsn] at h0
    cases h0
  · simp only [stopAudio, hsn] at hp
    rcases hlk : lookupStatus st nid with _ | s
    · rw [hlk] at hp
      simp only at hp
      have hpid : st.sourceNode = some p.1 := hplay p hp hpl
      rw [hsn] at hpid
      have hpid2 : p.1 = nid := by
        have := hpid.symm
        injection this
      rw [lookupStatus, Option.map_eq_none'] at hlk
      rw [List.find?_eq_none] at hlk
      have h1 := hlk p hp
      simp [hpid2] at h1
    · rw [hlk] at hp
      rcases s with _ | _ | _
      · simp only [rawStop] at hp
        rw [setStatus] at hp
        rw [List.mem_map] at hp
        obtain ⟨q, hq, hqp⟩ := hp
        by_cases hq1 : q.1 = nid
        · rw [if_pos hq1] at hqp
          rw [← hqp] at hpl
          cases hpl
        · rw [if_neg hq1] at hqp
          rw [← hqp] at hpl
          have h2 := hplay q hq hpl
          rw [hsn] at h2
          have h3 : q.1 = nid := by
            have := h2.symm
            injection this
          exact hq1 h3
      all_goals
        simp only [rawStop] at hp
        have hpid : st.sourceNode = some p.1 := hplay p hp hpl
        rw [hsn] at hpid
        have hpid2 : p.1 = nid := by
          have := hpid.symm
          injection this
        rw [lookupStatus, Option.map_eq_some'] at hlk
        obtain ⟨e, he, hes⟩ := hlk
        have hemem := List.mem_of_find?_eq_some he
        have heid := List.find?_some he
        simp only [decide_eq_true_eq] at heid
        have hpe : p = e := nodupKeys_eq hnodup hp hemem (by rw [hpid2, heid])
        rw [hpe, hes] at hpl
        cases hpl

theorem stopAudio_eq_of_playing (st : AppState) (nid : Nat)
    (hsn : st.sourceNode = some nid)
    (hlk : lookupStatus st nid = some SourceStatus.playing) :
    stopAudio st = { st with
      sources := setStatus st.sources nid SourceStatus.stopped
      connected := st.connected.erase nid
      sourceNode := none
      isPlaying := false } := by
  simp only [stopAudio, hsn, hlk, rawStop]

/-- C5: with a cached buffer, triggering play twice in succession (each play
being `handleReplay`, which tears the current session down via `stopAudio`
and then starts a new source with `playBuffer`) yields exactly one source
node in the playing state; the node created by the first play is stopped,
disconnected from the graph, and no longer referenced; the session reference
holds the second node and playback is on. -/
theorem play_twice_single_session (st : AppState) (b : AudioBuffer)
    (hInv : PlaybackInv st) (hbuf : st.lastAudioBuffer = some b) :
    countPlaying (handleReplay (handleReplay st)) = 1 ∧
    lookupStatus (handleReplay (handleReplay st)) st.nextId =
      some SourceStatus.stopped ∧
    st.nextId ∉ (handleReplay (handleReplay st)).connected ∧
    (handleReplay (handleReplay st)).sourceNode = some (st.nextId + 1) ∧
    (handleReplay (handleReplay st)).isPlaying = true := by
  obtain ⟨hplay, hids, hconn, hnodup⟩ := hInv
  have h1 : handleReplay st = playBuffer (stopAudio st) b := by
    simp [handleReplay, hbuf]
  have hbuf2 : (playBuffer (stopAudio st) b).lastAudioBuffer = some b := by
    simp [playBuffer, stopAudio_lastAudioBuffer, hbuf]
  have h2 : handleReplay (handleReplay st) =
      playBuffer (stopAudio (playBuffer (stopAudio st) b)) b := by
    rw [h1, handleReplay, hbuf2]
  -- every id recorded or connected after the first stop is below the counter
  have hids1 : ∀ p ∈ (stopAudio st).sources, p.1 < st.nextId := by
    intro p hp
    have hmem : p.1 ∈ (stopAudio st).sources.map Prod.fst :=
      List.mem_map.mpr ⟨p, hp, rfl⟩
    rw [stopAudio_map_fst] at hmem
    obtain ⟨q, hq, hqp⟩ := List.mem_map.mp hmem
    rw [← hqp]
    exact hids q hq
  have hconn1 : ∀ x ∈ (stopAudio st).connected, x < st.nextId := fun x hx =>
    hconn x (stopAudio_connected_sub st x hx)
  have hnp1 : ∀ p ∈ (stopAudio st).sources, p.2 ≠ SourceStatus.playing :=
    stopAudio_no_playing st ⟨hplay, hids, hconn, hnodup⟩
  -- the state after the first play
  have hsrc2 : (playBuffer (stopAudio st) b).sources =
      (stopAudio st).sources ++ [(st.nextId, SourceStatus.playing)] := by
    simp [playBuffer, stopAudio_nextId]
  have hsn2 : (playBuffer (stopAudio st) b).sourceNode = some st.nextId := by
    simp [playBuffer, stopAudio_nextId]
  have hconn2 : (playBuffer (stopAudio st) b).connected =
      (stopAudio st).connected ++ [st.nextId] := by
    simp [playBuffer, stopAudio_nextId]
  have hnext2 : (playBuffer (stopAudio st) b).nextId = st.nextId + 1 := by
    simp [playBuffer, stopAudio_nextId]
  have hfind1 : (stopAudio st).sources.find?
      (fun p => decide (p.1 = st.nextId)) = none := by
    rw [List.find?_eq_none]
    intro x hx
    have := hids1 x hx
    simp only [decide_eq_true_eq]
    omega
  have hlk2 : lookupStatus (playBuffer (stopAudio st) b) st.nextId =
      some SourceStatus.playing := by
    rw [lookupStatus, hsrc2, List.find?_append, hfind1]
    simp [List.find?]
  -- the second stop
  have hne1 : ∀ p ∈ (stopAudio st).sources, p.1 ≠ st.nextId := by
    intro p hp
    have := hids1 p hp
    omega
  have h3 := stopAudio_eq_of_playing (playBuffer (stopAudio st) b) st.nextId
    hsn2 hlk2
  have hsrc3 : (stopAudio (playBuffer (stopAudio st) b)).sources =
      (stopAudio st).sources ++ [(st.nextId, SourceStatus.stopped)] := by
    rw [h3]
    show setStatus (playBuffer (stopAudio st) b).sources st.nextId
      SourceStatus.stopped = _
    rw [hsrc2, setStatus, List.map_append]
    have heq : (stopAudio st).sources.map (fun p =>
        if p.1 = st.nextId then (p.1, SourceStatus.stopped) else p) =
        (stopAudio st).sources.map (fun p => p) :=
      List.map_congr_left fun p hp => by simp [hne1 p hp]
    rw [heq, List.map_id']
    simp
  have hmem3 : st.nextId ∉ (stopAudio st).connected := by
    intro hmem
    have := hconn1 _ hmem
    omega
  have hconn3 : (stopAudio (playBuffer (stopAudio st) b)).connected =
      (stopAudio st).connected := by
    rw [h3]
    show ((playBuffer (stopAudio st) b).connected).erase st.nextId = _
    rw [hconn2, List.erase_append_right _ hmem3]
    simp
  have hnext3 : (stopAudio (playBuffer (stopAudio st) b)).nextId =
      st.nextId + 1 := by
    rw [stopAudio_nextId, hnext2]
  -- the state after the second play
  rw [h2]
  have hsrc4 : (playBuffer (stopAudio (playBuffer (stopAudio st) b)) b).sources =
      ((stopAudio st).sources ++ [(st.nextId, SourceStatus.stopped)]) ++
        [(st.nextId + 1, SourceStatus.playing)] := by
    show (stopAudio (playBuffer (stopAudio st) b)).sources ++
      [((stopAudio (playBuffer (stopAudio st) b)).nextId,
        SourceStatus.playing)] = _
    rw [hsrc3, hnext3]
  have hconn4 : (playBuffer (stopAudio (playBuffer (stopAudio st) b)) b).connected =
      (stopAudio st).connected ++ [st.nextId + 1] := by
    show (stopAudio (playBuffer (stopAudio st) b)).connected ++
      [(stopAudio (playBuffer (stopAudio st) b)).nextId] = _
    rw [hconn3, hnext3]
  refine ⟨?_, ?_, ?_, ?_, ?_⟩
  · rw [countPlaying, hsrc4, List.filter_append, List.filter_append]
    rw [List.filter_eq_nil_iff.mpr (by
      intro p hp
      simp only [decide_eq_true_eq]
      exact hnp1 p hp)]
    simp
  · rw [lookupStatus, hsrc4, List.find?_append, List.find?_append, hfind1]
    simp [List.find?]
  · rw [hconn4]
    intro hmem
    rcases List.mem_append.mp hmem with hA | hB
    · exact hmem3 hA
    · simp at hB
  · show some ((stopAudio (playBuffer (stopAudio st) b)).nextId) =
      some (st.nextId + 1)
    rw [hnext3]
  · rfl

/-- A state ready for replay: a cached buffer and no session yet. -/
def replayReadyState : AppState :=
  ⟨[], none, [], false, true, none, some ⟨1, 24000, 1, [[0]]⟩, 0, 0⟩

/-- C5 witness: from the replay-ready state, two replays leave exactly one
playing source; node 0 (created by the first replay) is stopped, out of the
graph and unreferenced; node 1 is the referenced one and playback is on. -/
theorem play_twice_single_session_witness :
    PlaybackInv replayReadyState ∧
    countPlaying (handleReplay (handleReplay replayReadyState)) = 1 ∧
    lookupStatus (handleReplay (handleReplay replayReadyState)) 0 =
      some SourceStatus.stopped ∧
    (0 : Nat) ∉ (handleReplay (handleReplay replayReadyState)).connected ∧
    (handleReplay (handleReplay replayReadyState)).sourceNode = some 1 ∧
    (handleReplay (handleReplay replayReadyState)).isPlaying = true := by
  have hInv : PlaybackInv replayReadyState := by
    refine ⟨?_, ?_, ?_, ?_⟩ <;> simp [PlaybackInv, replayReadyState]
  have h := play_twice_single_session replayReadyState
    ⟨1, 24000, 1, [[0]]⟩ hInv rfl
  exact ⟨hInv, h.1, h.2.1, h.2.2.1, h.2.2.2.1, h.2.2.2.2⟩

/-! Claim C6: the base64 decoder. -/

theorem b64Index_char : ∀ k, k < 64 →
    b64Index (b64Alphabet.getD k 'A') = some k := by decide

theorem b64Char_not_ws (k : Nat) : isB64Ws (b64Alphabet.getD k 'A') = false := by
  rcases Nat.lt_or_ge k 64 with h | h
  · revert h
    revert k
    decide
  · rw [List.getD_eq_default _ _ (by simpa [b64Alphabet] using h)]
    decide

theorem b64Char_ne_pad (k : Nat) : b64Alphabet.getD k 'A' ≠ '=' := by
  rcases Nat.lt_or_ge k 64 with h | h
  · revert h
    revert k
    decide
  · rw [List.getD_eq_default _ _ (by simpa [b64Alphabet] using h)]
    decide

theorem encodeNoPad_mem : ∀ (l : List Nat), ∀ c ∈ encodeNoPad l,
    ∃ k, c = b64Alphabet.getD k 'A'
  | [], c, hc => by simp [encodeNoPad] at hc
  | [x], c, hc => by
      simp only [encodeNoPad, List.mem_cons, List.not_mem_nil, or_false] at hc
      rcases hc with h | h
      · exact ⟨x / 4, h⟩
      · exact ⟨x % 4 * 16, h⟩
  | [x, y], c, hc => by
      simp only [encodeNoPad, List.mem_cons, List.not_mem_nil, or_false] at hc
      rcases hc with h | h | h
      · exact ⟨x / 4, h⟩
      · exact ⟨x % 4 * 16 + y / 16, h⟩
      · exact ⟨y % 16 * 4, h⟩
  | x :: y :: z :: rest, c, hc => by
      simp only [encodeNoPad, List.mem_cons] at hc
      rcases hc with h | h | h | h | h
      · exact ⟨x / 4, h⟩
      · exact ⟨x % 4 * 16 + y / 16, h⟩
      · exact ⟨y % 16 * 4 + z / 64, h⟩
      · exact ⟨z % 64, h⟩
      · exact encodeNoPad_mem rest c h

theorem encodeNoPad_not_ws (l : List Nat) :
    ∀ c ∈ encodeNoPad l, isB64Ws c = false := by
  intro c hc
  obtain ⟨k, hk⟩ := encodeNoPad_mem l c hc
  rw [hk]
  exact b64Char_not_ws k

theorem encodeNoPad_ne_pad (l : List Nat) :
    ∀ c ∈ encodeNoPad l, c ≠ '=' := by
  intro c hc
  obtain ⟨k, hk⟩ := encodeNoPad_mem l c hc
  rw [hk]
  exact b64Char_ne_pad k

theorem padOf_cases : ∀ l : List Nat,
    padOf l = [] ∨ padOf l = [ '='] ∨ padOf l = [ '=', '=']
  | [] => Or.inl rfl
  | [_] => Or.inr (Or.inr rfl)
  | [_, _] => Or.inr (Or.inl rfl)
  | _ :: _ :: _ :: rest => padOf_cases rest

theorem encodePad_length_mod : ∀ l : List Nat,
    ((encodeNoPad l).length + (padOf l).length) % 4 = 0
  | [] => by simp [encodeNoPad, padOf]
  | [x] => by simp [encodeNoPad, padOf]
  | [x, y] => by simp [encodeNoPad, padOf]
  | x :: y :: z :: rest => by
      have ih := encodePad_length_mod rest
      simp only [encodeNoPad, padOf, List.length_cons] at ih ⊢
      omega

theorem encodeNoPad_length_mod : ∀ l : List Nat,
    (encodeNoPad l).length % 4 ≠ 1
  | [] => by simp [encodeNoPad]
  | [x] => by simp [encodeNoPad]
  | [x, y] => by simp [encodeNoPad]
  | x :: y :: z :: rest => by
      have ih := encodeNoPad_length_mod rest
      simp only [encodeNoPad, List.length_cons] at ih ⊢
      omega

theorem stripWs_encode (l : List Nat) :
    stripWs (encodeNoPad l ++ padOf l) = encodeNoPad l ++ padOf l := by
  rw [stripWs, List.filter_eq_self]
  intro c hc
  rcases List.mem_append.mp hc with h | h
  · simp [encodeNoPad_not_ws l c h]
  · have hceq : c = '=' := by
      rcases padOf_cases l with hp | hp | hp <;> rw [hp] at h
      · cases h
      · simpa using h
      · rcases List.mem_cons.mp h with h1 | h1
        · exact h1
        · simpa using h1
    rw [hceq]
    decide

theorem dropPad_encode (l : List Nat) :
    dropPad (encodeNoPad l ++ padOf l) = encodeNoPad l := by
  have h4 := encodePad_length_mod l
  have hne := encodeNoPad_ne_pad l
  rcases padOf_cases l with hp | hp | hp <;> rw [hp] <;> rw [hp] at h4
  · rw [List.append_nil]
    have h4' : (encodeNoPad l).length % 4 = 0 := by simpa using h4
    rcases hE : (encodeNoPad l).reverse with _ | ⟨c, r⟩
    · simp [dropPad, h4', hE]
    · have hc : c ≠ '=' := hne c (by
        rw [← List.mem_reverse, hE]
        exact List.mem_cons_self _ _)
      simp [dropPad, h4', hE, hc]
  · have h4' : ((encodeNoPad l) ++ [ '=']).length % 4 = 0 := by
      simp only [List.length_append, List.length_cons, List.length_nil] at h4 ⊢
      omega
    rcases hE : (encodeNoPad l).reverse with _ | ⟨c, r⟩
    · exfalso
      have hEnil : encodeNoPad l = [] := List.reverse_eq_nil_iff.mp hE
      rw [hEnil] at h4
      simp at h4
    · have hc : c ≠ '=' := hne c (by
        rw [← List.mem_reverse, hE]
        exact List.mem_cons_self _ _)
      have hrev : ((encodeNoPad l) ++ [ '=']).reverse = '=' :: c :: r := by
        rw [List.reverse_append, hE]
        rfl
      rw [dropPad, if_pos h4', hrev]
      rw [if_neg (by simp [hc])]
      rw [if_pos (by simp)]
      rw [show ( '=' :: c :: r).drop 1 = c :: r from rfl]
      rw [← hE, List.reverse_reverse]
  · have h4' : ((encodeNoPad l) ++ [ '=', '=']).length % 4 = 0 := by
      simp only [List.length_append, List.length_cons, List.length_nil] at h4 ⊢
      omega
    have hrev : ((encodeNoPad l) ++ [ '=', '=']).reverse =
        '=' :: '=' :: (encodeNoPad l).reverse := by
      rw [List.reverse_append]
      rfl
    rw [dropPad, if_pos h4', hrev]
    rw [if_pos (by simp)]
    rw [show ( '=' :: '=' :: (encodeNoPad l).reverse).drop 2 =
      (encodeNoPad l).reverse from rfl]
    rw [List.reverse_reverse]

theorem mapM_b64Index_some : ∀ l : List Char,
    (∀ c ∈ l, (b64Index c).isSome) →
    ∃ v, l.mapM b64Index = some v ∧ v.length = l.length
  | [], _ => ⟨[], rfl, rfl⟩
  | c :: rest, h => by
      obtain ⟨k, hk⟩ := Option.isSome_iff_exists.mp (h c (List.mem_cons_self _ _))
      obtain ⟨v, hv, hvl⟩ :=
        mapM_b64Index_some rest fun x hx => h x (List.mem_cons_of_mem _ hx)
      refine ⟨k :: v, ?_, by simp [hvl]⟩
      rw [List.mapM_cons, hk, hv]
      rfl

theorem mapM_b64Index_none : ∀ (l : List Char) (c : Char), c ∈ l →
    b64Index c = none → l.mapM b64Index = none
  | [], c, hc, _ => by cases hc
  | x :: rest, c, hc, hnone => by
      rw [List.mapM_cons]
      rcases List.mem_cons.mp hc with hcx | hct
      · rw [← hcx, hnone]
        rfl
      · rcases hk : b64Index x with _ | k
        · rfl
        · rw [mapM_b64Index_none rest c hct hnone]
          rfl

theorem decodeGroups_length : ∀ l : List Nat,
    (decodeGroups l).length = l.length * 3 / 4
  | [] => by simp [decodeGroups]
  | [a] => by simp [decodeGroups]
  | [a, b] => by simp [decodeGroups]
  | [a, b, c] => by simp [decodeGroups]
  | a :: b :: c :: d :: rest => by
      have ih := decodeGroups_length rest
      simp only [decodeGroups, List.length_cons, ih]
      omega

theorem decode_encodeNoPad : ∀ l : List Nat, (∀ x ∈ l, x < 256) →
    ∃ idxs, (encodeNoPad l).mapM b64Index = some idxs ∧ decodeGroups idxs = l
  | [], _ => ⟨[], rfl, rfl⟩
  | [x], h => by
      have hx : x < 256 := h x (List.mem_cons_self _ _)
      refine ⟨[x / 4, x % 4 * 16], ?_, ?_⟩
      · rw [show encodeNoPad [x] =
          [b64Alphabet.getD (x / 4) 'A', b64Alphabet.getD (x % 4 * 16) 'A']
          from rfl]
        rw [List.mapM_cons, b64Index_char (x / 4) (by omega),
          List.mapM_cons, b64Index_char (x % 4 * 16) (by omega)]
        rfl
      · rw [show decodeGroups [x / 4, x % 4 * 16] = [x / 4 * 4 + x % 4 * 16 / 16]
          from rfl]
        refine congrArg (fun z => [z]) ?_
        omega
  | [x, y], h => by
      have hx : x < 256 := h x (List.mem_cons_self _ _)
      have hy : y < 256 := h y (by simp)
      refine ⟨[x / 4, x % 4 * 16 + y / 16, y % 16 * 4], ?_, ?_⟩
      · rw [show encodeNoPad [x, y] =
          [b64Alphabet.getD (x / 4) 'A',
           b64Alphabet.getD (x % 4 * 16 + y / 16) 'A',
           b64Alphabet.getD (y % 16 * 4) 'A'] from rfl]
        rw [List.mapM_cons, b64Index_char (x / 4) (by omega),
          List.mapM_cons, b64Index_char (x % 4 * 16 + y / 16) (by omega),
          List.mapM_cons, b64Index_char (y % 16 * 4) (by omega)]
        rfl
      · rw [show decodeGroups [x / 4, x % 4 * 16 + y / 16, y % 16 * 4] =
          [x / 4 * 4 + (x % 4 * 16 + y / 16) / 16,
           (x % 4 * 16 + y / 16) % 16 * 16 + y % 16 * 4 / 4] from rfl]
        have e1 : x / 4 * 4 + (x % 4 * 16 + y / 16) / 16 = x := by omega
        have e2 : (x % 4 * 16 + y / 16) % 16 * 16 + y % 16 * 4 / 4 = y := by
          omega
        rw [e1, e2]
  | x :: y :: z :: rest, h => by
      have hx : x < 256 := h x (List.mem_cons_self _ _)
      have hy : y < 256 := h y (by simp)
      have hz : z < 256 := h z (by simp)
      obtain ⟨idxs, hmap, hdec⟩ := decode_encodeNoPad rest fun a ha =>
        h a (by simp [ha])
      refine ⟨x / 4 :: (x % 4 * 16 + y / 16) :: (y % 16 * 4 + z / 64) ::
        z % 64 :: idxs, ?_, ?_⟩
      · rw [show encodeNoPad (x :: y :: z :: rest) =
          b64Alphabet.getD (x / 4) 'A' ::
          b64Alphabet.getD (x % 4 * 16 + y / 16) 'A' ::
          b64Alphabet.getD (y % 16 * 4 + z / 64) 'A' ::
          b64Alphabet.getD (z % 64) 'A' :: encodeNoPad rest from rfl]
        rw [List.mapM_cons, b64Index_char (x / 4) (by omega),
          List.mapM_cons, b64Index_char (x % 4 * 16 + y / 16) (by omega),
          List.mapM_cons, b64Index_char (y % 16 * 4 + z / 64) (by omega),
          List.mapM_cons, b64Index_char (z % 64) (by omega), hmap]
        rfl
      · rw [show decodeGroups (x / 4 :: (x % 4 * 16 + y / 16) ::
          (y % 16 * 4 + z / 64) :: z % 64 :: idxs) =
          (x / 4 * 4 + (x % 4 * 16 + y / 16) / 16) ::
          ((x % 4 * 16 + y / 16) % 16 * 16 + (y % 16 * 4 + z / 64) / 4) ::
          ((y % 16 * 4 + z / 64) % 4 * 64 + z % 64) ::
          decodeGroups idxs from rfl]
        have e1 : x / 4 * 4 + (x % 4 * 16 + y / 16) / 16 = x := by omega
        have e2 : (x % 4 * 16 + y / 16) % 16 * 16 + (y % 16 * 4 + z / 64) / 4 =
            y := by omega
        have e3 : (y % 16 * 4 + z / 64) % 4 * 64 + z % 64 = z := by omega
        rw [e1, e2, e3, hdec]

theorem mem_drop_of_take_pad (l : List Char) (c : Char) (n : Nat)
    (hc : c ∈ l) (hne : c ≠ '=')
    (htake : ∀ x ∈ l.reverse.take n, x = '=') :
    c ∈ (l.reverse.drop n).reverse := by
  rw [List.mem_reverse]
  have hrev : c ∈ l.reverse := List.mem_reverse.mpr hc
  rw [← List.take_append_drop n l.reverse] at hrev
  rcases List.mem_append.mp hrev with h | h
  · exact absurd (htake c h) hne
  · exact h

theorem dropPad_mem (l : List Char) (c : Char) (hc : c ∈ l) (hne : c ≠ '=') :
    c ∈ dropPad l := by
  rw [dropPad]
  by_cases h4 : l.length % 4 = 0
  · rw [if_pos h4]
    by_cases h2 : l.reverse.take 2 = [ '=', '=']
    · rw [if_pos h2]
      apply mem_drop_of_take_pad l c 2 hc hne
      intro x hx
      rw [h2] at hx
      rcases List.mem_cons.mp hx with h | h
      · exact h
      · simpa using h
    · rw [if_neg h2]
      by_cases h1 : l.reverse.take 1 = [ '=']
      · rw [if_pos h1]
        apply mem_drop_of_take_pad l c 1 hc hne
        intro x hx
        rw [h1] at hx
        simpa using hx
      · rw [if_neg h1]
        exact hc
  · rw [if_neg h4]
    exact hc

/-- C6: the base64 decoder decodes exactly — decoding the standard base64
encoding of any byte sequence returns that sequence —; on every valid
whitespace-free input it succeeds with output length ⌊(len - padding)*3/4⌋;
and it fails on every whitespace-free input containing a character outside
the base64 alphabet other than padding.  It is a pure function of its
argument. -/
theorem decodeBase64_spec :
    (∀ bytes : List Nat, (∀ x ∈ bytes, x < 256) →
        decodeBase64 (base64Encode bytes) = some bytes) ∧
    (∀ s : String, (∀ c ∈ s.toList, isB64Ws c = false) →
        (dropPad s.toList).length % 4 ≠ 1 →
        (∀ c ∈ dropPad s.toList, (b64Index c).isSome) →
        ∃ out, decodeBase64 s = some out ∧
          out.length = (dropPad s.toList).length * 3 / 4) ∧
    (∀ s : String, (∀ c ∈ s.toList, isB64Ws c = false) →
        (∃ c ∈ s.toList, b64Index c = none ∧ c ≠ '=') →
        decodeBase64 s = none) := by
  refine ⟨?_, ?_, ?_⟩
  · intro bytes hb
    simp only [decodeBase64, atob]
    have htl : (base64Encode bytes).toList =
        encodeNoPad bytes ++ padOf bytes := rfl
    rw [htl, stripWs_encode, dropPad_encode,
      if_neg (encodeNoPad_length_mod bytes)]
    obtain ⟨idxs, hmap, hdec⟩ := decode_encodeNoPad bytes hb
    rw [hmap]
    simp [hdec]
  · intro s hws h41 hsome
    simp only [decodeBase64, atob]
    have hstrip : stripWs s.toList = s.toList := by
      rw [stripWs, List.filter_eq_self]
      intro c hc
      simp [hws c hc]
    rw [hstrip, if_neg h41]
    obtain ⟨v, hv, hvl⟩ := mapM_b64Index_some (dropPad s.toList) hsome
    rw [hv]
    refine ⟨decodeGroups v, rfl, ?_⟩
    rw [decodeGroups_length, hvl]
  · intro s hws hbad
    obtain ⟨c, hcmem, hcnone, hcne⟩ := hbad
    simp only [decodeBase64, atob]
    have hstrip : stripWs s.toList = s.toList := by
      rw [stripWs, List.filter_eq_self]
      intro x hx
      simp [hws x hx]
    rw [hstrip]
    by_cases h41 : (dropPad s.toList).length % 4 = 1
    · rw [if_pos h41]
    · rw [if_neg h41,
        mapM_b64Index_none (dropPad s.toList) c
          (dropPad_mem _ c hcmem hcne) hcnone]
      rfl

/-- C6 witness: "TWFu" decodes back to [77, 97, 110]; the valid padded input
"TQ==" decodes with the padding-adjusted length 1; the input "T$" fails. -/
theorem decodeBase64_spec_witness :
    decodeBase64 (base64Encode [77, 97, 110]) = some [77, 97, 110] ∧
    (∃ out, decodeBase64 ("TQ==") = some out ∧
      out.length = (dropPad ("TQ==").toList).length * 3 / 4) ∧
    decodeBase64 ("T$") = none := by
  refine ⟨?_, ?_, ?_⟩
  · exact decodeBase64_spec.1 [77, 97, 110] (by decide)
  · exact decodeBase64_spec.2.1 ("TQ==") (by decide) (by decide) (by decide)
  · exact decodeBase64_spec.2.2 ("T$") (by decide)
      ⟨ '$', by decide, by decide, by decide⟩
